import Mathlib

/-!
# golang-lvs: the process execution backend of `lvs.go`

A shallow embedding of `src/lvs.go`.  The Go code talks to the operating
system through `os/exec`; here every such call is answered by an explicit
environment (`OS`), and every call the code makes is appended to a trace of
`Event`s, so that the order and the arguments of the calls can be stated.

Conventions
* a Go `string` and a Go `[]byte` are byte sequences (`List UInt8`); a
  `[]byte` that may be the nil slice is an `Option (List UInt8)`;
* a Go `error` is an `Option GoErr`, `none` being `nil`;
* a Go `int` is an `Int` wrapped to 64 bits by `wrapInt` where the code adds;
* the `for` loop of `ExecuteWithStdin` takes a bound on the number of loop
  bodies it may run and reports `running` when the bound is used up.
-/

namespace Lvs

/-- A Go string: an immutable sequence of bytes. -/
abbrev GoString := List UInt8

/-- The bytes of a string literal of the source (UTF-8, as Go stores it). -/
def str (s : String) : GoString := s.toUTF8.data.toList

/-- Go's conversion `string(b)` of a byte slice; the nil slice gives `""`. -/
def string (b : Option (List UInt8)) : GoString := b.getD []

/-- Error values.  The first four are the package-level variables of lines
16-19, each created once; `new msg` is a value made by `errors.New(msg)`
inside a function body (a fresh value on every call, so never identical to a
package-level one); `sys msg` is an error handed back by `os/exec` or by the
pipe, with text `msg`. -/
inductive GoErr
  | Conflict
  | NotFound
  | DeleteFailed
  | IpvsadmMissing
  | new (msg : GoString)
  | sys (msg : GoString)
  deriving DecidableEq, Repr

/-- The method `Error()` of an error value. -/
def GoErr.Error : GoErr → GoString
  | .Conflict => str "object already exists"
  | .NotFound => str "object was not found"
  | .DeleteFailed => str "object was not deleted"
  | .IpvsadmMissing => str "unable to find the ipvsadm command on the system"
  | .new msg => msg
  | .sys msg => msg

/-- Turns the answer of an `os/exec` call (its error text, or `none` for
`nil`) into the Go `error` the code sees. -/
def sysErr : Option GoString → Option GoErr
  | none => none
  | some t => some (.sys t)

/-- One call made by the code to `os/exec` or to the pipe, with what the call
answered. -/
inductive Event
  | command (exe : GoString) (args : List GoString)
  | combinedOutput (out : Option (List UInt8)) (err : Option GoString)
  | stdinPipe (err : Option GoString)
  | start (err : Option GoString)
  | write (buf : List UInt8) (n : Int) (err : Option GoString)
  | close (err : Option GoString)
  | wait (err : Option GoString)
  deriving DecidableEq, Repr

/-- Recognises a `Write` on the pipe. -/
def Event.isWrite : Event → Bool
  | .write _ _ _ => true
  | _ => false

/-- Recognises a `Close` of the pipe. -/
def Event.isClose : Event → Bool
  | .close _ => true
  | _ => false

/-- Recognises a `Wait` for the process. -/
def Event.isWait : Event → Bool
  | .wait _ => true
  | _ => false

/-- How one `*exec.Cmd` answers the calls made on it.  The answers of the
pipe and of `Wait` may depend on everything that happened before (the trace
so far), which covers any stateful writer and any process.
`stdinPipe` is the error of `cmd.StdinPipe()`: when it is `some _` the
returned `io.WriteCloser` is the nil interface. -/
structure Cmd where
  combinedOutput : Option (List UInt8) × Option GoString
  stdinPipe : Option GoString
  start : Option GoString
  write : List Event → List UInt8 → Int × Option GoString
  close : List Event → Option GoString
  wait : List Event → Option GoString

/-- The operating system as seen through `exec.Command(exe, args...)`. -/
abbrev OS := GoString → List GoString → Cmd

/-- What a call of a Go function comes to: it returns a value, it panics, or
(for a bounded run of a loop) it is still running. -/
inductive Outcome (α : Type)
  | returned (v : α)
  | panicked
  | running
  deriving DecidableEq, Repr

/-- The struct `defaultBackendExecutor` of line 83: it has no field. -/
structure defaultBackendExecutor where
  deriving DecidableEq, Repr

/-- The type of the variable `BackendExecutor` of line 26.  The declaration
`BackendExecutor = &defaultBackendExecutor{}` carries no type, so Go gives the
variable the type of its initialiser, `*defaultBackendExecutor`: a pointer,
`none` being the nil pointer. -/
abbrev BackendSlot := Option defaultBackendExecutor

/-- The initial value of the variable `BackendExecutor` (line 26). -/
def BackendExecutor : BackendSlot := some {}

/-- The interface `Executor` of lines 29-33: any value with these three
methods.  A method of an arbitrary implementation is given by what a call of
it comes to. -/
structure Executor where
  Execute : GoString → List GoString → Outcome (Option GoErr)
  Run : List GoString → Outcome (Option (List UInt8) × Option GoErr)
  ExecuteWithStdin : GoString → GoString → List GoString → Outcome (Option GoErr)

/-- Go's two's-complement wrap of an `int`, taken as 64 bits wide (the size
of `int` on the 64-bit Linux hosts the package is for). -/
def wrapInt (x : Int) : Int := (x + 2 ^ 63) % 2 ^ 64 - 2 ^ 63

/-- The slice expression `s[lo:hi]` on a string: `none` when the bounds are
out of range (a run-time panic). -/
def sliceStr (s : GoString) (lo hi : Int) : Option GoString :=
  if 0 ≤ lo ∧ lo ≤ hi ∧ hi ≤ (s.length : Int) then
    some ((s.take hi.toNat).drop lo.toNat)
  else none

/-- Lines 86-94, `(*defaultBackendExecutor).Execute`. -/
def defaultBackendExecutor.Execute (_d : BackendSlot) (os : OS) (exe : GoString)
    (args : List GoString) : Option GoErr × List Event :=
  let cmd := os exe args
  let output := cmd.combinedOutput.1
  let err := cmd.combinedOutput.2
  let tr := [Event.command exe args, Event.combinedOutput output err]
  match sysErr err with
  | some e => (some (GoErr.new (e.Error ++ str ": " ++ string output)), tr)
  | none => (none, tr)

/-- Lines 96-103, `(*defaultBackendExecutor).Run`.  `args[0]` on an empty
slice is an index out of range. -/
def defaultBackendExecutor.Run (_d : BackendSlot) (os : OS) :
    List GoString → Outcome (Option (List UInt8) × Option GoErr) × List Event
  | [] => (.panicked, [])
  | a0 :: rest =>
    let cmd := os a0 rest
    let output := cmd.combinedOutput.1
    let err := cmd.combinedOutput.2
    let tr := [Event.command a0 rest, Event.combinedOutput output err]
    match sysErr err with
    | some e => (.returned (none, some (GoErr.new (e.Error ++ str " output: " ++ string output))), tr)
    | none => (.returned (output, sysErr err), tr)

/-- How the `for` loop of lines 119-124 ends. -/
inductive LoopExit
  | done
  | ret (err : GoErr)
  | panic
  | running
  deriving DecidableEq, Repr

/-- Lines 119-124: `for part = 0; part != total; part += segment`, started at
`part` with the trace so far.  The first argument bounds the number of loop
bodies still allowed. -/
def writeLoop (write : List Event → List UInt8 → Int × Option GoString) (in_ : GoString)
    (total : Int) : Nat → Int → List Event → LoopExit × List Event
  | 0, part, tr => if part = total then (.done, tr) else (.running, tr)
  | fuel + 1, part, tr =>
    if part = total then (.done, tr)
    else
      match sliceStr in_ part total with
      | none => (.panic, tr)
      | some buf =>
        let segment := (write tr buf).1
        let err := (write tr buf).2
        let tr1 := tr ++ [Event.write buf segment err]
        match sysErr err with
        | some e => (.ret e, tr1)
        | none => writeLoop write in_ total fuel (wrapInt (part + segment)) tr1

/-- The deferred `stdin.Close()` of line 113, run when the function returns
or panics; its result is dropped. -/
def deferredClose (cmd : Cmd) (r : Outcome (Option GoErr) × List Event) :
    Outcome (Option GoErr) × List Event :=
  (r.1, r.2 ++ [Event.close (cmd.close r.2)])

/-- Lines 105-127, `(*defaultBackendExecutor).ExecuteWithStdin`.  When
`StdinPipe` fails, `stdin` is the nil interface and evaluating `stdin.Close`
for the `defer` of line 113 is a nil dereference: the call panics there, with
nothing deferred yet. -/
def defaultBackendExecutor.ExecuteWithStdin (_d : BackendSlot) (os : OS) (fuel : Nat)
    (in_ exe : GoString) (args : List GoString) : Outcome (Option GoErr) × List Event :=
  let cmd := os exe args
  let tr0 := [Event.command exe args, Event.stdinPipe cmd.stdinPipe]
  match cmd.stdinPipe with
  | some _ => (.panicked, tr0)
  | none =>
    let tr1 := tr0 ++ [Event.start cmd.start]
    match sysErr cmd.start with
    | some e => deferredClose cmd (.returned (some e), tr1)
    | none =>
      let total : Int := in_.length
      match writeLoop cmd.write in_ total fuel 0 tr1 with
      | (.ret e, tr) => deferredClose cmd (.returned (some e), tr)
      | (.panic, tr) => deferredClose cmd (.panicked, tr)
      | (.running, tr) => (.running, tr)
      | (.done, tr) =>
        let tr2 := tr ++ [Event.close (cmd.close tr)]
        let w := cmd.wait tr2
        deferredClose cmd (.returned (sysErr w), tr2 ++ [Event.wait w])

/-- Lines 129-131, `run`: reads the variable `BackendExecutor` (passed as
`slot`) and calls its `Run`. -/
def run (slot : BackendSlot) (os : OS) (args : List GoString) :
    Outcome (Option (List UInt8) × Option GoErr) × List Event :=
  defaultBackendExecutor.Run slot os args

/-- Lines 133-135, `execute`. -/
def execute (slot : BackendSlot) (os : OS) (exe : GoString) (args : List GoString) :
    Option GoErr × List Event :=
  defaultBackendExecutor.Execute slot os exe args

/-- Lines 137-139, `executeStdin`. -/
def executeStdin (slot : BackendSlot) (os : OS) (fuel : Nat) (in_ exe : GoString)
    (args : List GoString) : Outcome (Option GoErr) × List Event :=
  defaultBackendExecutor.ExecuteWithStdin slot os fuel in_ exe args

/-- Lines 48-53, `Check`. -/
def Check (slot : BackendSlot) (os : OS) : Option GoErr × List Event :=
  match execute slot os (str "which") [str "ipvsadm"] with
  | (some _, tr) => (some GoErr.IpvsadmMissing, tr)
  | (none, tr) => (none, tr)

/-- Lines 37-45, `Load`. -/
def Load (slot : BackendSlot) (os : OS) : Option GoErr × List Event :=
  match Check slot os with
  | (some err, tr) => (some err, tr)
  | (none, tr) => (none, tr)

/-- The methods of a value of the slot, seen as an `Executor`: what the three
calls come to on a given operating system. -/
def slotExecutor (slot : BackendSlot) (os : OS) (fuel : Nat) : Executor where
  Execute := fun exe args => .returned (defaultBackendExecutor.Execute slot os exe args).1
  Run := fun args => (defaultBackendExecutor.Run slot os args).1
  ExecuteWithStdin := fun i exe args =>
    (defaultBackendExecutor.ExecuteWithStdin slot os fuel i exe args).1

/-- The `(buffer, count)` pairs of the writes of a trace, in order. -/
def writesOf : List Event → List (List UInt8 × Int)
  | [] => []
  | .write buf n _ :: rest => (buf, n) :: writesOf rest
  | _ :: rest => writesOf rest

/-- A pipe writer that, on a non-empty buffer of length `r`, reports no error
and a count `n` with `1 ≤ n ≤ r`, whatever happened before. -/
def WellBehaved (write : List Event → List UInt8 → Int × Option GoString) : Prop :=
  ∀ (h : List Event) (buf : List UInt8), buf ≠ [] →
    (write h buf).2 = none ∧ 1 ≤ (write h buf).1 ∧ (write h buf).1 ≤ (buf.length : Int)

/-- The offsets of a run of writes that delivers `in_` from offset `off` on:
every write is handed the rest of `in_` at the current offset and reports a
count between 1 and the length of what it was handed, and the run stops at
the end of `in_`. -/
def Delivers (in_ : GoString) : Nat → List (List UInt8 × Int) → Prop
  | off, [] => off = in_.length
  | off, (buf, n) :: rest =>
    buf = in_.drop off ∧ 1 ≤ n ∧ n ≤ (buf.length : Int) ∧ Delivers in_ (off + n.toNat) rest

/-- A writer that takes at most two bytes a call. -/
def twoAtATime : List Event → List UInt8 → Int × Option GoString :=
  fun _ buf => (min 2 (buf.length : Int), none)

/-- A writer that takes one byte on its first call and fails afterwards,
reporting nothing consumed. -/
def failsOnSecond : List Event → List UInt8 → Int × Option GoString :=
  fun h buf => if writesOf h = [] then (min 1 (buf.length : Int), none)
    else (0, some (str "broken pipe"))

/-- A process whose pipe and start succeed, given its writer, its close and
its wait. -/
def pipedCmd (write : List Event → List UInt8 → Int × Option GoString)
    (close : List Event → Option GoString) (wait : List Event → Option GoString) : Cmd where
  combinedOutput := (none, none)
  stdinPipe := none
  start := none
  write := write
  close := close
  wait := wait

/-- A process that exits with status 1 and writes nothing, as `false` does. -/
def exitsOne : Cmd where
  combinedOutput := (none, some (str "exit status 1"))
  stdinPipe := none
  start := none
  write := fun _ buf => (buf.length, none)
  close := fun _ => none
  wait := fun _ => some (str "exit status 1")

/-- An implementation of `Executor` for tests: every call returns its canned
success and spawns nothing. -/
def cannedExecutor : Executor where
  Execute := fun _ _ => .returned none
  Run := fun _ => .returned (some [], none)
  ExecuteWithStdin := fun _ _ _ => .returned none

/-- The trace of a run of writes none of which reported an error. -/
def writeEvents (W : List (List UInt8 × Int)) : List Event :=
  W.map (fun w => Event.write w.1 w.2 none)

/-- No write of the trace reported an error. -/
def NoWriteError (ws : List Event) : Prop :=
  ∀ (buf : List UInt8) (n : Int) (err : Option GoString), Event.write buf n err ∈ ws → err = none

/-- The operating system `os` with every process's `Wait` answering by `wt`. -/
def withWait (os : OS) (wt : List Event → Option GoString) : OS :=
  fun exe args => { os exe args with wait := wt }

/-- The operating system `os` with every pipe's `Close` answering by `cl`. -/
def withClose (os : OS) (cl : List Event → Option GoString) : OS :=
  fun exe args => { os exe args with close := cl }

/-- A `Close` that answers `c1` on a pipe not closed before and `c2` on a pipe
already closed. -/
def closeScript (c1 c2 : Option GoString) : List Event → Option GoString :=
  fun h => if h.any Event.isClose then c2 else c1

/-- An operating system on which every process reads its input two bytes a
write and exits cleanly. -/
def catOS : OS := fun _ _ => pipedCmd twoAtATime (fun _ => none) (fun _ => none)

/-- An operating system on which the pipe of every process breaks after the
first byte. -/
def brokenPipeOS : OS :=
  fun _ _ => pipedCmd failsOnSecond (fun _ => none) (fun _ => some (str "signal: broken pipe"))

/-- Recognises a `Write` that reported an error. -/
def Event.writeFailed : Event → Bool
  | .write _ _ (some _) => true
  | _ => false

/-- An operating system on which the pipe of every process breaks after the
first byte and every process exits cleanly. -/
def fragileOS : OS := withWait brokenPipeOS (fun _ => none)

/-! ## Execute, Run, Check -/

theorem Execute_of_nil (d : BackendSlot) (os : OS) (exe : GoString) (args : List GoString)
    (h : (os exe args).combinedOutput.2 = none) :
    defaultBackendExecutor.Execute d os exe args =
      (none, [Event.command exe args,
        Event.combinedOutput (os exe args).combinedOutput.1 none]) := by
  simp only [defaultBackendExecutor.Execute, h, sysErr]

theorem Execute_of_error (d : BackendSlot) (os : OS) (exe : GoString) (args : List GoString)
    (t : GoString) (h : (os exe args).combinedOutput.2 = some t) :
    defaultBackendExecutor.Execute d os exe args =
      (some (GoErr.new (t ++ str ": " ++ string (os exe args).combinedOutput.1)),
        [Event.command exe args,
          Event.combinedOutput (os exe args).combinedOutput.1 (some t)]) := by
  simp only [defaultBackendExecutor.Execute, h, sysErr, GoErr.Error]

theorem Run_of_nil (d : BackendSlot) (os : OS) (a0 : GoString) (rest : List GoString)
    (h : (os a0 rest).combinedOutput.2 = none) :
    defaultBackendExecutor.Run d os (a0 :: rest) =
      (Outcome.returned ((os a0 rest).combinedOutput.1, none),
        [Event.command a0 rest, Event.combinedOutput (os a0 rest).combinedOutput.1 none]) := by
  simp only [defaultBackendExecutor.Run, h, sysErr]

theorem Run_of_error (d : BackendSlot) (os : OS) (a0 : GoString) (rest : List GoString)
    (t : GoString) (h : (os a0 rest).combinedOutput.2 = some t) :
    defaultBackendExecutor.Run d os (a0 :: rest) =
      (Outcome.returned
          (none, some (GoErr.new (t ++ str " output: " ++ string (os a0 rest).combinedOutput.1))),
        [Event.command a0 rest, Event.combinedOutput (os a0 rest).combinedOutput.1 (some t)]) := by
  simp only [defaultBackendExecutor.Run, h, sysErr, GoErr.Error]

/-- C2: `Execute` spawns one process and returns nil exactly when its
combined-output call reports no error; when that call reports an error with
text `t`, `Execute` returns an error whose message is exactly `t`, then the
separator `": "`, then the captured output as a string, so that `t` starts
the message and the captured output ends it. -/
theorem Execute_reports_underlying_result (d : BackendSlot) (os : OS) (exe : GoString)
    (args : List GoString) :
    (defaultBackendExecutor.Execute d os exe args).2 =
        [Event.command exe args,
          Event.combinedOutput (os exe args).combinedOutput.1 (os exe args).combinedOutput.2] ∧
    ((defaultBackendExecutor.Execute d os exe args).1 = none ↔
        (os exe args).combinedOutput.2 = none) ∧
    ∀ t : GoString, (os exe args).combinedOutput.2 = some t →
      ∃ e : GoErr, (defaultBackendExecutor.Execute d os exe args).1 = some e ∧
        e.Error = (GoErr.sys t).Error ++ str ": " ++ string (os exe args).combinedOutput.1 ∧
        (GoErr.sys t).Error <+: e.Error ∧
        string (os exe args).combinedOutput.1 <:+ e.Error := by
  refine ⟨?_, ?_, ?_⟩
  · cases h : (os exe args).combinedOutput.2 with
    | none => rw [Execute_of_nil d os exe args h]
    | some t => rw [Execute_of_error d os exe args t h]
  · cases h : (os exe args).combinedOutput.2 with
    | none => rw [Execute_of_nil d os exe args h]; simp
    | some t => rw [Execute_of_error d os exe args t h]; simp
  · intro t ht
    refine ⟨GoErr.new (t ++ str ": " ++ string (os exe args).combinedOutput.1), ?_, ?_, ?_, ?_⟩
    · rw [Execute_of_error d os exe args t ht]
    · simp [GoErr.Error]
    · simp only [GoErr.Error, List.append_assoc]
      exact List.prefix_append _ _
    · simp only [GoErr.Error]
      exact List.suffix_append _ _

/-- C3: for a non-empty `argv`, `Run` spawns `argv[0]` with the arguments
`argv[1:]` and nothing else; when the process succeeds `Run` returns the
captured output unchanged and a nil error; when it fails with text `t`, `Run`
returns a nil payload and an error whose message is `t`, then `" output: "`
(the marker `output:` between two blanks), then the captured output; that
message is never empty. -/
theorem Run_spawns_argv_and_reports (d : BackendSlot) (os : OS) (argv : List GoString)
    (hne : argv ≠ []) :
    (defaultBackendExecutor.Run d os argv).2 =
        [Event.command (argv.head hne) argv.tail,
          Event.combinedOutput (os (argv.head hne) argv.tail).combinedOutput.1
            (os (argv.head hne) argv.tail).combinedOutput.2] ∧
    ((os (argv.head hne) argv.tail).combinedOutput.2 = none →
      (defaultBackendExecutor.Run d os argv).1 =
        Outcome.returned ((os (argv.head hne) argv.tail).combinedOutput.1, none)) ∧
    ∀ t : GoString, (os (argv.head hne) argv.tail).combinedOutput.2 = some t →
      ∃ e : GoErr, (defaultBackendExecutor.Run d os argv).1 = Outcome.returned (none, some e) ∧
        e.Error = (GoErr.sys t).Error ++ (str " " ++ str "output:" ++ str " ") ++
          string (os (argv.head hne) argv.tail).combinedOutput.1 ∧
        e.Error ≠ [] := by
  cases argv with
  | nil => exact absurd rfl hne
  | cons a0 rest =>
    have hmark : str " " ++ str "output:" ++ str " " = str " output: " := by decide
    simp only [List.head_cons, List.tail_cons]
    refine ⟨?_, ?_, ?_⟩
    · cases h : (os a0 rest).combinedOutput.2 with
      | none => rw [Run_of_nil d os a0 rest h]
      | some t => rw [Run_of_error d os a0 rest t h]
    · intro h
      rw [Run_of_nil d os a0 rest h]
    · intro t ht
      refine ⟨GoErr.new (t ++ str " output: " ++ string (os a0 rest).combinedOutput.1), ?_, ?_, ?_⟩
      · rw [Run_of_error d os a0 rest t ht]
      · rw [hmark]
        simp [GoErr.Error]
      · have hsp : str " output: " ≠ [] := by decide
        simp [GoErr.Error, hsp]

/-- Witness of C3: `Run(["false"])`, a process that exits with status 1 and
writes nothing. -/
theorem Run_spawns_argv_and_reports_witness :
    (defaultBackendExecutor.Run BackendExecutor (fun _ _ => exitsOne) [str "false"]).2 =
        [Event.command (str "false") [], Event.combinedOutput none (some (str "exit status 1"))] ∧
    (defaultBackendExecutor.Run BackendExecutor (fun _ _ => exitsOne) [str "false"]).1 =
        Outcome.returned
          (none, some (GoErr.new (str "exit status 1" ++ str " output: " ++ []))) :=
  ⟨(Run_spawns_argv_and_reports BackendExecutor (fun _ _ => exitsOne) [str "false"]
      (by simp)).1, rfl⟩

/-- C4: `Check` calls `Execute` once, with the executable `which` and the one
argument `ipvsadm`; it returns nil exactly when that call returns nil, and
whatever error that call returns, `Check` returns the package-level value
`IpvsadmMissing`, whose text is "unable to find the ipvsadm command on the
system" and which is never the error `Execute` made. -/
theorem Check_returns_IpvsadmMissing (slot : BackendSlot) (os : OS) :
    (Check slot os).2 =
        (defaultBackendExecutor.Execute slot os (str "which") [str "ipvsadm"]).2 ∧
    (Check slot os).2 =
        [Event.command (str "which") [str "ipvsadm"],
          Event.combinedOutput (os (str "which") [str "ipvsadm"]).combinedOutput.1
            (os (str "which") [str "ipvsadm"]).combinedOutput.2] ∧
    ((Check slot os).1 = none ↔
        (defaultBackendExecutor.Execute slot os (str "which") [str "ipvsadm"]).1 = none) ∧
    (∀ e : GoErr,
        (defaultBackendExecutor.Execute slot os (str "which") [str "ipvsadm"]).1 = some e →
        (Check slot os).1 = some GoErr.IpvsadmMissing ∧ GoErr.IpvsadmMissing ≠ e) ∧
    GoErr.IpvsadmMissing.Error = str "unable to find the ipvsadm command on the system" := by
  cases h : (os (str "which") [str "ipvsadm"]).combinedOutput.2 with
  | none =>
    simp [Check, execute, Execute_of_nil slot os _ _ h, GoErr.Error]
  | some t =>
    simp [Check, execute, Execute_of_error slot os _ _ t h, GoErr.Error]

/-! ## The write loop of ExecuteWithStdin -/

theorem wrapInt_of_range (x : Int) (h0 : 0 ≤ x) (h1 : x < 2 ^ 63) : wrapInt x = x := by
  unfold wrapInt
  omega

theorem sliceStr_rest (s : GoString) (off : Nat) (h : off ≤ s.length) :
    sliceStr s (off : Int) (s.length : Int) = some (s.drop off) := by
  unfold sliceStr
  have h1 : (0 : Int) ≤ (off : Int) ∧ (off : Int) ≤ (s.length : Int) ∧
      (s.length : Int) ≤ (s.length : Int) := ⟨by omega, by omega, le_refl _⟩
  rw [if_pos h1]
  simp

theorem writeLoop_at_end (write : List Event → List UInt8 → Int × Option GoString)
    (in_ : GoString) (total : Int) (fuel : Nat) (tr : List Event) :
    writeLoop write in_ total fuel total tr = (LoopExit.done, tr) := by
  cases fuel <;> simp [writeLoop]

/-- One turn of the loop with a writer that reports no error and a count
inside the buffer: the loop goes on at the advanced offset. -/
theorem writeLoop_step (write : List Event → List UInt8 → Int × Option GoString)
    (in_ : GoString) (hlen : in_.length < 2 ^ 63) (fuel off : Nat) (tr : List Event)
    (hoff : off < in_.length)
    (herr : (write tr (in_.drop off)).2 = none)
    (h1 : 1 ≤ (write tr (in_.drop off)).1)
    (h2 : (write tr (in_.drop off)).1 ≤ ((in_.drop off).length : Int)) :
    writeLoop write in_ (in_.length : Int) (fuel + 1) (off : Int) tr =
      writeLoop write in_ (in_.length : Int) fuel
        ((off + ((write tr (in_.drop off)).1).toNat : Nat) : Int)
        (tr ++ [Event.write (in_.drop off) (write tr (in_.drop off)).1 none]) := by
  have hne : ¬ ((off : Int) = (in_.length : Int)) := by omega
  have hdl : ((in_.drop off).length : Int) = (in_.length : Int) - (off : Int) := by
    rw [List.length_drop]
    omega
  have hw : wrapInt ((off : Int) + (write tr (in_.drop off)).1) =
      ((off + ((write tr (in_.drop off)).1).toNat : Nat) : Int) := by
    rw [wrapInt_of_range _ (by omega) (by omega)]
    omega
  rw [writeLoop, if_neg hne, sliceStr_rest in_ off (le_of_lt hoff)]
  simp only [herr, sysErr, hw]

theorem writeLoop_delivers (write : List Event → List UInt8 → Int × Option GoString)
    (hw : WellBehaved write) (in_ : GoString) (hlen : in_.length < 2 ^ 63) :
    ∀ (fuel off : Nat) (tr : List Event), off ≤ in_.length → in_.length - off ≤ fuel →
      ∃ W : List (List UInt8 × Int),
        writeLoop write in_ (in_.length : Int) fuel (off : Int) tr =
          (LoopExit.done, tr ++ writeEvents W) ∧ Delivers in_ off W := by
  intro fuel
  induction fuel with
  | zero =>
    intro off tr hoff hfuel
    have heq : off = in_.length := by omega
    refine ⟨[], ?_, ?_⟩
    · rw [heq, writeLoop_at_end]
      simp [writeEvents]
    · simpa [Delivers] using heq
  | succ fuel ih =>
    intro off tr hoff hfuel
    by_cases heq : off = in_.length
    · refine ⟨[], ?_, ?_⟩
      · rw [heq, writeLoop_at_end]
        simp [writeEvents]
      · simpa [Delivers] using heq
    · have hlt : off < in_.length := lt_of_le_of_ne hoff heq
      have hbuf : in_.drop off ≠ [] := by
        intro h
        have := congrArg List.length h
        rw [List.length_drop] at this
        simp at this
        omega
      obtain ⟨herr, h1, h2⟩ := hw tr (in_.drop off) hbuf
      have h2n : (write tr (in_.drop off)).1 ≤ (in_.length : Int) - (off : Int) := by
        have := h2
        rw [List.length_drop] at this
        omega
      obtain ⟨W, hrun, hdel⟩ := ih (off + ((write tr (in_.drop off)).1).toNat)
        (tr ++ [Event.write (in_.drop off) (write tr (in_.drop off)).1 none])
        (by omega) (by omega)
      refine ⟨(in_.drop off, (write tr (in_.drop off)).1) :: W, ?_, ?_⟩
      · rw [writeLoop_step write in_ hlen fuel off tr hlt herr h1 h2, hrun]
        simp [writeEvents]
      · exact ⟨rfl, h1, h2, hdel⟩

theorem Delivers_length (in_ : GoString) :
    ∀ (W : List (List UInt8 × Int)) (off : Nat), Delivers in_ off W →
      W.length + off ≤ in_.length := by
  intro W
  induction W with
  | nil =>
    intro off h
    simp only [Delivers] at h
    simp [h]
  | cons w W ih =>
    intro off h
    obtain ⟨buf, n⟩ := w
    obtain ⟨hb, h1, h2, hrest⟩ := h
    have := ih _ hrest
    simp only [List.length_cons]
    omega

theorem Delivers_flatten (in_ : GoString) :
    ∀ (W : List (List UInt8 × Int)) (off : Nat), Delivers in_ off W →
      (W.map (fun w => w.1.take w.2.toNat)).flatten = in_.drop off := by
  intro W
  induction W with
  | nil =>
    intro off h
    simp only [Delivers] at h
    simp [h]
  | cons w W ih =>
    intro off h
    obtain ⟨buf, n⟩ := w
    obtain ⟨hb, h1, h2, hrest⟩ := h
    have hih := ih _ hrest
    simp only [List.map_cons, List.flatten_cons, hih, hb]
    rw [← List.drop_drop, List.take_append_drop]

theorem Delivers_kth (in_ : GoString) :
    ∀ (W : List (List UInt8 × Int)) (off : Nat), Delivers in_ off W →
      ∀ (k : Nat) (buf : List UInt8) (n : Int), W[k]? = some (buf, n) →
        0 ≤ ((W.take k).map Prod.snd).sum ∧
        buf = in_.drop (off + (((W.take k).map Prod.snd).sum).toNat) ∧
        1 ≤ n ∧ n ≤ (buf.length : Int) := by
  intro W
  induction W with
  | nil =>
    intro off _ k buf n hk
    simp at hk
  | cons w W ih =>
    intro off h k buf n hk
    obtain ⟨b0, n0⟩ := w
    obtain ⟨hb, h1, h2, hrest⟩ := h
    cases k with
    | zero =>
      simp only [List.getElem?_cons_zero, Option.some.injEq, Prod.mk.injEq] at hk
      obtain ⟨rfl, rfl⟩ := hk
      refine ⟨by simp, by simpa using hb, h1, h2⟩
    | succ k =>
      simp only [List.getElem?_cons_succ] at hk
      obtain ⟨hs, hbuf, hn1, hn2⟩ := ih _ hrest k buf n hk
      simp only [List.take_succ_cons, List.map_cons, List.sum_cons]
      refine ⟨by omega, ?_, hn1, hn2⟩
      rw [hbuf]
      congr 1
      omega

/-- What the loop appends to the trace, for any writer: writes only; when the
loop returns an error, the last of them reported it and none before did;
otherwise none reported an error. -/
theorem writeLoop_shape (write : List Event → List UInt8 → Int × Option GoString)
    (in_ : GoString) (total : Int) :
    ∀ (fuel : Nat) (part : Int) (tr : List Event), ∃ ws : List Event,
      (writeLoop write in_ total fuel part tr).2 = tr ++ ws ∧
      (∀ ev ∈ ws, ev.isWrite = true) ∧
      (∀ e : GoErr, (writeLoop write in_ total fuel part tr).1 = LoopExit.ret e →
        ∃ (ws0 : List Event) (buf : List UInt8) (n : Int) (t : GoString),
          ws = ws0 ++ [Event.write buf n (some t)] ∧ e = GoErr.sys t ∧ NoWriteError ws0) ∧
      ((∀ e : GoErr, (writeLoop write in_ total fuel part tr).1 ≠ LoopExit.ret e) →
        NoWriteError ws) := by
  intro fuel
  induction fuel with
  | zero =>
    intro part tr
    refine ⟨[], ?_, ?_, ?_, ?_⟩
    · by_cases h : part = total <;> simp [writeLoop, h]
    · simp
    · intro e he
      by_cases h : part = total <;> simp [writeLoop, h] at he
    · intro _ buf n err hmem
      simp at hmem
  | succ fuel ih =>
    intro part tr
    by_cases h : part = total
    · refine ⟨[], ?_, ?_, ?_, ?_⟩
      · simp [writeLoop, h]
      · simp
      · intro e he
        simp [writeLoop, h] at he
      · intro _ buf n err hmem
        simp at hmem
    · cases hs : sliceStr in_ part total with
      | none =>
        refine ⟨[], ?_, ?_, ?_, ?_⟩
        · simp [writeLoop, h, hs]
        · simp
        · intro e he
          simp [writeLoop, h, hs] at he
        · intro _ buf n err hmem
          simp at hmem
      | some buf =>
        cases herr : (write tr buf).2 with
        | some t =>
          have hrun : writeLoop write in_ total (fuel + 1) part tr =
              (LoopExit.ret (GoErr.sys t),
                tr ++ [Event.write buf (write tr buf).1 (some t)]) := by
            simp [writeLoop, h, hs, herr, sysErr]
          refine ⟨[Event.write buf (write tr buf).1 (some t)], ?_, ?_, ?_, ?_⟩
          · rw [hrun]
          · simp [Event.isWrite]
          · intro e he
            rw [hrun] at he
            refine ⟨[], buf, (write tr buf).1, t, by simp, ?_, ?_⟩
            · simpa using he.symm
            · intro b m err hmem
              simp at hmem
          · intro hno
            exact absurd (by rw [hrun]) (hno (GoErr.sys t))
        | none =>
          have hrun : writeLoop write in_ total (fuel + 1) part tr =
              writeLoop write in_ total fuel (wrapInt (part + (write tr buf).1))
                (tr ++ [Event.write buf (write tr buf).1 none]) := by
            simp [writeLoop, h, hs, herr, sysErr]
          obtain ⟨ws, htr, hall, hret, hno⟩ := ih (wrapInt (part + (write tr buf).1))
            (tr ++ [Event.write buf (write tr buf).1 none])
          refine ⟨Event.write buf (write tr buf).1 none :: ws, ?_, ?_, ?_, ?_⟩
          · rw [hrun, htr]
            simp
          · intro ev hev
            rcases List.mem_cons.mp hev with rfl | hev
            · rfl
            · exact hall ev hev
          · intro e he
            rw [hrun] at he
            obtain ⟨ws0, b, m, t, hws, het, hnone⟩ := hret e he
            refine ⟨Event.write buf (write tr buf).1 none :: ws0, b, m, t, ?_, het, ?_⟩
            · rw [hws]
              simp
            · intro b1 m1 err hmem
              rcases List.mem_cons.mp hmem with heq | hmem
              · simp only [Event.write.injEq] at heq
                exact heq.2.2
              · exact hnone b1 m1 err hmem
          · intro hne b1 m1 err hmem
            rw [hrun] at hne
            rcases List.mem_cons.mp hmem with heq | hmem
            · simp only [Event.write.injEq] at heq
              exact heq.2.2
            · exact hno hne b1 m1 err hmem

/-- The body of `ExecuteWithStdin` once the pipe exists and the process has
started, by the way the loop ends. -/
theorem ExecuteWithStdin_of_loop (d : BackendSlot) (os : OS) (fuel : Nat) (in_ exe : GoString)
    (args : List GoString) (hpipe : (os exe args).stdinPipe = none)
    (hstart : (os exe args).start = none) (ex : LoopExit) (tr : List Event)
    (hres : writeLoop (os exe args).write in_ (in_.length : Int) fuel 0
      [Event.command exe args, Event.stdinPipe none, Event.start none] = (ex, tr)) :
    defaultBackendExecutor.ExecuteWithStdin d os fuel in_ exe args =
      match ex with
      | LoopExit.ret e =>
        (Outcome.returned (some e), tr ++ [Event.close ((os exe args).close tr)])
      | LoopExit.panic => (Outcome.panicked, tr ++ [Event.close ((os exe args).close tr)])
      | LoopExit.running => (Outcome.running, tr)
      | LoopExit.done =>
        (Outcome.returned
            (sysErr ((os exe args).wait (tr ++ [Event.close ((os exe args).close tr)]))),
          tr ++ [Event.close ((os exe args).close tr),
            Event.wait ((os exe args).wait (tr ++ [Event.close ((os exe args).close tr)])),
            Event.close ((os exe args).close
              (tr ++ [Event.close ((os exe args).close tr),
                Event.wait ((os exe args).wait
                  (tr ++ [Event.close ((os exe args).close tr)]))]))]) := by
  simp only [defaultBackendExecutor.ExecuteWithStdin, hpipe, hstart, sysErr, List.cons_append,
    List.nil_append, hres]
  cases ex <;> simp [deferredClose]

theorem writesOf_append (a b : List Event) : writesOf (a ++ b) = writesOf a ++ writesOf b := by
  induction a with
  | nil => rfl
  | cons ev a ih => cases ev <;> simp [writesOf, ih]

theorem writesOf_writeEvents (W : List (List UInt8 × Int)) : writesOf (writeEvents W) = W := by
  induction W with
  | nil => rfl
  | cons w W ih =>
    have : writeEvents (w :: W) = Event.write w.1 w.2 none :: writeEvents W := rfl
    rw [this]
    simp only [writesOf]
    rw [ih]

theorem writeEvents_no_close (W : List (List UInt8 × Int)) :
    ∀ ev ∈ writeEvents W, ev.isClose = false := by
  intro ev hev
  simp only [writeEvents, List.mem_map] at hev
  obtain ⟨w, _, rfl⟩ := hev
  rfl

/-- A whole run whose pipe exists, whose process starts and whose writer is
well behaved: it returns the result of `Wait`, after the writes that deliver
`in_` and the explicit close, and it ends with the deferred close. -/
theorem ExecuteWithStdin_full_write (d : BackendSlot) (os : OS) (fuel : Nat)
    (in_ exe : GoString) (args : List GoString)
    (hpipe : (os exe args).stdinPipe = none) (hstart : (os exe args).start = none)
    (hw : WellBehaved (os exe args).write) (hlen : in_.length < 2 ^ 63)
    (hfuel : in_.length ≤ fuel) :
    ∃ (W : List (List UInt8 × Int)) (c1 w c2 : Option GoString),
      Delivers in_ 0 W ∧
      defaultBackendExecutor.ExecuteWithStdin d os fuel in_ exe args =
        (Outcome.returned (sysErr w),
          [Event.command exe args, Event.stdinPipe none, Event.start none] ++ writeEvents W ++
            [Event.close c1, Event.wait w, Event.close c2]) ∧
      c1 = (os exe args).close
        ([Event.command exe args, Event.stdinPipe none, Event.start none] ++ writeEvents W) ∧
      w = (os exe args).wait
        ([Event.command exe args, Event.stdinPipe none, Event.start none] ++ writeEvents W ++
          [Event.close c1]) ∧
      c2 = (os exe args).close
        ([Event.command exe args, Event.stdinPipe none, Event.start none] ++ writeEvents W ++
          [Event.close c1, Event.wait w]) := by
  obtain ⟨W, hrun, hdel⟩ := writeLoop_delivers (os exe args).write hw in_ hlen fuel 0
    [Event.command exe args, Event.stdinPipe none, Event.start none] (Nat.zero_le _) (by omega)
  have hrun0 : writeLoop (os exe args).write in_ (in_.length : Int) fuel 0
      [Event.command exe args, Event.stdinPipe none, Event.start none] =
      (LoopExit.done,
        [Event.command exe args, Event.stdinPipe none, Event.start none] ++ writeEvents W) := by
    simpa using hrun
  refine ⟨W, _, _, _, hdel, ?_, rfl, rfl, rfl⟩
  rw [ExecuteWithStdin_of_loop d os fuel in_ exe args hpipe hstart _ _ hrun0]

/-- C1: with a pipe writer that on every non-empty buffer of length `r`
reports no error and a count between 1 and `r`, the write loop of
`ExecuteWithStdin` ends within `len(in)` writes and the call returns; the
`k`-th write is handed the suffix of `in` that starts at the sum of the counts
of the writes before it; the consumed parts of the buffers, one after the
other, are `in`; and for the empty `in` there is no write. -/
theorem ExecuteWithStdin_delivers_payload (d : BackendSlot) (os : OS) (fuel : Nat)
    (in_ exe : GoString) (args : List GoString)
    (hpipe : (os exe args).stdinPipe = none) (hstart : (os exe args).start = none)
    (hw : WellBehaved (os exe args).write) (hlen : in_.length < 2 ^ 63)
    (hfuel : in_.length ≤ fuel) :
    (∃ v, (defaultBackendExecutor.ExecuteWithStdin d os fuel in_ exe args).1 =
        Outcome.returned v) ∧
    (writesOf (defaultBackendExecutor.ExecuteWithStdin d os fuel in_ exe args).2).length ≤
        in_.length ∧
    (∀ (k : Nat) (buf : List UInt8) (n : Int),
        (writesOf (defaultBackendExecutor.ExecuteWithStdin d os fuel in_ exe args).2)[k]? =
          some (buf, n) →
        buf = in_.drop
          ((((writesOf (defaultBackendExecutor.ExecuteWithStdin d os fuel in_ exe args).2).take
            k).map Prod.snd).sum).toNat ∧
        1 ≤ n ∧ n ≤ (buf.length : Int)) ∧
    ((writesOf (defaultBackendExecutor.ExecuteWithStdin d os fuel in_ exe args).2).map
        (fun w => w.1.take w.2.toNat)).flatten = in_ ∧
    (in_ = [] →
      writesOf (defaultBackendExecutor.ExecuteWithStdin d os fuel in_ exe args).2 = []) := by
  obtain ⟨W, c1, w, c2, hdel, hrun, _, _, _⟩ :=
    ExecuteWithStdin_full_write d os fuel in_ exe args hpipe hstart hw hlen hfuel
  have hW : writesOf (defaultBackendExecutor.ExecuteWithStdin d os fuel in_ exe args).2 = W := by
    rw [hrun]
    simp [writesOf_append, writesOf_writeEvents, writesOf]
  rw [hW]
  have hl := Delivers_length in_ W 0 hdel
  refine ⟨⟨sysErr w, by rw [hrun]⟩, by omega, ?_, ?_, ?_⟩
  · intro k buf n hk
    obtain ⟨_, hb, h1, h2⟩ := Delivers_kth in_ W 0 hdel k buf n hk
    exact ⟨by simpa using hb, h1, h2⟩
  · simpa using Delivers_flatten in_ W 0 hdel
  · intro hnil
    have : W.length = 0 := by
      rw [hnil] at hl
      simpa using hl
    exact List.length_eq_zero.mp this

theorem twoAtATime_wellBehaved : WellBehaved twoAtATime := by
  intro h buf hbuf
  have hpos : 0 < buf.length := List.length_pos.mpr hbuf
  simp only [twoAtATime]
  refine ⟨trivial, ?_, ?_⟩ <;> omega

/-- Witness of C1: the payload `abcde` written two bytes a call. -/
theorem ExecuteWithStdin_delivers_payload_witness :
    ((writesOf (defaultBackendExecutor.ExecuteWithStdin BackendExecutor catOS 5 (str "abcde")
        (str "cat") []).2).map (fun w => w.1.take w.2.toNat)).flatten = str "abcde" ∧
    writesOf (defaultBackendExecutor.ExecuteWithStdin BackendExecutor catOS 5 (str "abcde")
        (str "cat") []).2 = [(str "abcde", 2), (str "cde", 2), (str "e", 1)] :=
  ⟨(ExecuteWithStdin_delivers_payload BackendExecutor catOS 5 (str "abcde") (str "cat") []
      rfl rfl twoAtATime_wellBehaved (by decide) (by decide)).2.2.2.1, by decide⟩

theorem NoWriteError_of_all (ws : List Event)
    (h : ws.all (fun ev => !ev.writeFailed) = true) : NoWriteError ws := by
  intro buf n err hmem
  have hev := List.all_eq_true.mp h _ hmem
  cases err with
  | none => rfl
  | some t => simp [Event.writeFailed] at hev

theorem NoWriteError_writeEvents (W : List (List UInt8 × Int)) :
    NoWriteError (writeEvents W) := by
  intro buf n err hmem
  simp only [writeEvents, List.mem_map] at hmem
  obtain ⟨w, _, hw⟩ := hmem
  simp only [Event.write.injEq] at hw
  exact hw.2.2.symm

theorem any_isClose_of_writes (ws : List Event) (hall : ∀ ev ∈ ws, ev.isWrite = true) :
    ws.any Event.isClose = false := by
  rw [List.any_eq_false]
  intro ev hev
  have hwr := hall ev hev
  cases ev <;> simp [Event.isWrite] at hwr
  simp [Event.isClose]

theorem countP_isClose_of_writes (ws : List Event) (hall : ∀ ev ∈ ws, ev.isWrite = true) :
    ws.countP Event.isClose = 0 := by
  rw [List.countP_eq_zero]
  intro ev hev
  have hwr := hall ev hev
  cases ev <;> simp [Event.isWrite] at hwr
  simp [Event.isClose]

/-- A call that returned with the pipe created, the process started and no
write reporting an error left the loop by its condition `part == total`. -/
theorem ExecuteWithStdin_loop_done (d : BackendSlot) (os : OS) (fuel : Nat)
    (in_ exe : GoString) (args : List GoString)
    (hpipe : (os exe args).stdinPipe = none) (hstart : (os exe args).start = none)
    (v : Option GoErr)
    (hret : (defaultBackendExecutor.ExecuteWithStdin d os fuel in_ exe args).1 =
      Outcome.returned v)
    (hno : NoWriteError (defaultBackendExecutor.ExecuteWithStdin d os fuel in_ exe args).2) :
    ∃ ws : List Event, (∀ ev ∈ ws, ev.isWrite = true) ∧
      writeLoop (os exe args).write in_ (in_.length : Int) fuel 0
          [Event.command exe args, Event.stdinPipe none, Event.start none] =
        (LoopExit.done,
          [Event.command exe args, Event.stdinPipe none, Event.start none] ++ ws) := by
  obtain ⟨ws, htr, hall, hshape, _⟩ := writeLoop_shape (os exe args).write in_
    (in_.length : Int) fuel 0 [Event.command exe args, Event.stdinPipe none, Event.start none]
  rcases hres : writeLoop (os exe args).write in_ (in_.length : Int) fuel 0
    [Event.command exe args, Event.stdinPipe none, Event.start none] with ⟨ex, tr⟩
  have hE := ExecuteWithStdin_of_loop d os fuel in_ exe args hpipe hstart ex tr hres
  rw [hres] at htr hshape
  simp only at htr hshape
  cases ex with
  | done => exact ⟨ws, hall, by rw [htr]⟩
  | ret e =>
    obtain ⟨ws0, b, m, t, hws, _, _⟩ := hshape e rfl
    simp only at hE
    rw [hE, htr, hws] at hno
    exact absurd (hno b m (some t) (by simp)) (by simp)
  | panic =>
    simp only at hE
    rw [hE] at hret
    simp at hret
  | running =>
    simp only at hE
    rw [hE] at hret
    simp at hret

/-- With a well-behaved writer and a bound of at least `len(in)` loop bodies
the call returns and no write reports an error. -/
theorem ExecuteWithStdin_well_behaved_path (d : BackendSlot) (os : OS) (fuel : Nat)
    (in_ exe : GoString) (args : List GoString)
    (hpipe : (os exe args).stdinPipe = none) (hstart : (os exe args).start = none)
    (hw : WellBehaved (os exe args).write) (hlen : in_.length < 2 ^ 63)
    (hfuel : in_.length ≤ fuel) :
    (∃ v, (defaultBackendExecutor.ExecuteWithStdin d os fuel in_ exe args).1 =
        Outcome.returned v) ∧
    NoWriteError (defaultBackendExecutor.ExecuteWithStdin d os fuel in_ exe args).2 := by
  obtain ⟨W, c1, w, c2, _, hrun, _, _, _⟩ :=
    ExecuteWithStdin_full_write d os fuel in_ exe args hpipe hstart hw hlen hfuel
  rw [hrun]
  refine ⟨⟨sysErr w, rfl⟩, ?_⟩
  intro buf n err hmem
  simp only [List.mem_append, List.mem_cons, List.mem_singleton, List.not_mem_nil,
    or_false, false_or, reduceCtorEq] at hmem
  exact NoWriteError_writeEvents W buf n err hmem

/-- C6: on the path where the pipe exists, the process starts, no write
reports an error and the call returns, `ExecuteWithStdin` makes its calls in
the order start, the writes, the explicit close of the pipe, wait (and then
the deferred close), and returns exactly what `Wait` reported: nil for a
clean exit, the wait error otherwise.  The writer is arbitrary; with a
well-behaved writer and a bound of at least `len(in)` loop bodies the call
is on that path. -/
theorem ExecuteWithStdin_order_of_effects (d : BackendSlot) (os : OS) (fuel : Nat)
    (in_ exe : GoString) (args : List GoString)
    (hpipe : (os exe args).stdinPipe = none) (hstart : (os exe args).start = none) :
    (∀ v : Option GoErr,
      (defaultBackendExecutor.ExecuteWithStdin d os fuel in_ exe args).1 = Outcome.returned v →
      NoWriteError (defaultBackendExecutor.ExecuteWithStdin d os fuel in_ exe args).2 →
      ∃ (ws : List Event) (c1 w c2 : Option GoString),
        (defaultBackendExecutor.ExecuteWithStdin d os fuel in_ exe args).2 =
          [Event.command exe args, Event.stdinPipe none, Event.start none] ++ ws ++
            [Event.close c1, Event.wait w, Event.close c2] ∧
        (∀ ev ∈ ws, ev.isWrite = true) ∧
        v = sysErr w ∧
        (w = none → v = none) ∧
        (∀ t : GoString, w = some t → v = some (GoErr.sys t))) ∧
    (WellBehaved (os exe args).write → in_.length < 2 ^ 63 → in_.length ≤ fuel →
      (∃ v, (defaultBackendExecutor.ExecuteWithStdin d os fuel in_ exe args).1 =
        Outcome.returned v) ∧
      NoWriteError (defaultBackendExecutor.ExecuteWithStdin d os fuel in_ exe args).2) := by
  refine ⟨?_, fun hw hlen hfuel =>
    ExecuteWithStdin_well_behaved_path d os fuel in_ exe args hpipe hstart hw hlen hfuel⟩
  intro v hret hno
  obtain ⟨ws, hall, hloop⟩ :=
    ExecuteWithStdin_loop_done d os fuel in_ exe args hpipe hstart v hret hno
  have hE := ExecuteWithStdin_of_loop d os fuel in_ exe args hpipe hstart _ _ hloop
  simp only at hE
  rw [hE] at hret
  simp only [Outcome.returned.injEq] at hret
  refine ⟨ws, _, _, _, by rw [hE], hall, hret.symm, ?_, ?_⟩
  · intro hnone
    rw [← hret, hnone]
    rfl
  · intro t ht
    rw [← hret, ht]
    rfl

/-- Witness of C6: the payload `a` on a pipe whose writer takes one byte and
would fail on a second write, to a process that `Wait` reports killed. -/
theorem ExecuteWithStdin_order_of_effects_witness :
    defaultBackendExecutor.ExecuteWithStdin BackendExecutor brokenPipeOS 1 (str "a")
        (str "cat") [] =
      (Outcome.returned (some (GoErr.sys (str "signal: broken pipe"))),
        [Event.command (str "cat") [], Event.stdinPipe none, Event.start none,
          Event.write (str "a") 1 none,
          Event.close none, Event.wait (some (str "signal: broken pipe")),
          Event.close none]) ∧
    ∃ (ws : List Event) (c1 w c2 : Option GoString),
      (defaultBackendExecutor.ExecuteWithStdin BackendExecutor brokenPipeOS 1 (str "a")
          (str "cat") []).2 =
        [Event.command (str "cat") [], Event.stdinPipe none, Event.start none] ++ ws ++
          [Event.close c1, Event.wait w, Event.close c2] :=
  ⟨by decide,
    ((ExecuteWithStdin_order_of_effects BackendExecutor brokenPipeOS 1 (str "a") (str "cat") []
      rfl rfl).1 (some (GoErr.sys (str "signal: broken pipe"))) (by decide)
      (NoWriteError_of_all _ (by decide))).imp
      fun _ hW => hW.imp fun _ h1 => h1.imp fun _ hw => hw.imp fun _ h2 => h2.1⟩

/-- C5: when a write of a call of `ExecuteWithStdin` reports an error `t`
(with any count), the call returns exactly that error; the failing write is
followed by the deferred close only, so there is no further write and no
wait; no write before it reported an error; and the whole run is the same
whatever `Wait` would have answered. -/
theorem ExecuteWithStdin_write_failure (d : BackendSlot) (os : OS) (fuel : Nat)
    (in_ exe : GoString) (args : List GoString) (buf : List UInt8) (n : Int) (t : GoString)
    (hmem : Event.write buf n (some t) ∈
      (defaultBackendExecutor.ExecuteWithStdin d os fuel in_ exe args).2) :
    (defaultBackendExecutor.ExecuteWithStdin d os fuel in_ exe args).1 =
        Outcome.returned (some (GoErr.sys t)) ∧
    (∃ (pre : List Event) (c : Option GoString),
        (defaultBackendExecutor.ExecuteWithStdin d os fuel in_ exe args).2 =
          pre ++ [Event.write buf n (some t), Event.close c] ∧
        NoWriteError pre ∧
        ∀ ev ∈ pre, ev.isWait = false ∧ ev.isClose = false) ∧
    ∀ wt : List Event → Option GoString,
      defaultBackendExecutor.ExecuteWithStdin d (withWait os wt) fuel in_ exe args =
        defaultBackendExecutor.ExecuteWithStdin d os fuel in_ exe args := by
  cases hpipe : (os exe args).stdinPipe with
  | some e =>
    simp [defaultBackendExecutor.ExecuteWithStdin, hpipe] at hmem
  | none =>
    cases hstart : (os exe args).start with
    | some e =>
      simp [defaultBackendExecutor.ExecuteWithStdin, hpipe, hstart, sysErr, deferredClose] at hmem
    | none =>
      rcases hres : writeLoop (os exe args).write in_ (in_.length : Int) fuel 0
        [Event.command exe args, Event.stdinPipe none, Event.start none] with ⟨ex, tr⟩
      have hE := ExecuteWithStdin_of_loop d os fuel in_ exe args hpipe hstart ex tr hres
      obtain ⟨ws, htr, hall, hret, hno⟩ := writeLoop_shape (os exe args).write in_
        (in_.length : Int) fuel 0 [Event.command exe args, Event.stdinPipe none, Event.start none]
      rw [hres] at htr hret hno
      simp only at htr hret hno
      cases ex with
      | ret e =>
        obtain ⟨ws0, b, m, t1, hws, het, hnone⟩ := hret e rfl
        simp only at hE
        rw [hE, htr, hws] at hmem
        have hbt : buf = b ∧ n = m ∧ t = t1 := by
          simp only [List.mem_append, List.mem_cons, List.mem_singleton, List.not_mem_nil,
            or_false, false_or, Event.write.injEq, Option.some.injEq, reduceCtorEq] at hmem
          rcases hmem with hmem | hmem
          · exact absurd (hnone buf n (some t) hmem) (by simp)
          · exact hmem
        obtain ⟨rfl, rfl, rfl⟩ := hbt
        refine ⟨by rw [hE, het], ⟨[Event.command exe args, Event.stdinPipe none, Event.start none]
          ++ ws0, (os exe args).close tr, ?_, ?_, ?_⟩, ?_⟩
        · rw [hE, htr, hws]
          simp
        · intro b1 m1 err h1
          simp only [List.mem_append, List.mem_cons, List.mem_singleton, List.not_mem_nil,
            or_false, false_or, reduceCtorEq] at h1
          exact hnone b1 m1 err h1
        · intro ev hev
          simp only [List.mem_append, List.mem_cons, List.mem_singleton, List.not_mem_nil,
            or_false] at hev
          rcases hev with (rfl | rfl | rfl) | hev
          · exact ⟨rfl, rfl⟩
          · exact ⟨rfl, rfl⟩
          · exact ⟨rfl, rfl⟩
          · have hwr := hall ev (by rw [hws]; exact List.mem_append_left _ hev)
            cases ev <;> simp [Event.isWrite] at hwr
            exact ⟨rfl, rfl⟩
        · intro wt
          rw [hE]
          exact ExecuteWithStdin_of_loop d (withWait os wt) fuel in_ exe args hpipe hstart
            (LoopExit.ret e) tr hres
      | done =>
        have hnw := hno (by intro e; simp)
        simp only at hE
        rw [hE, htr] at hmem
        simp only [List.mem_append, List.mem_cons, List.mem_singleton, List.not_mem_nil,
          or_false, false_or, reduceCtorEq] at hmem
        exact absurd (hnw buf n (some t) hmem) (by simp)
      | panic =>
        have hnw := hno (by intro e; simp)
        simp only at hE
        rw [hE, htr] at hmem
        simp only [List.mem_append, List.mem_cons, List.mem_singleton, List.not_mem_nil,
          or_false, false_or, reduceCtorEq] at hmem
        exact absurd (hnw buf n (some t) hmem) (by simp)
      | running =>
        have hnw := hno (by intro e; simp)
        simp only at hE
        rw [hE, htr] at hmem
        simp only [List.mem_append, List.mem_cons, List.mem_singleton, List.not_mem_nil,
          or_false, false_or, reduceCtorEq] at hmem
        exact absurd (hnw buf n (some t) hmem) (by simp)

/-- Witness of C5: the second write of the payload `abcde` fails with nothing
consumed; the process would have been reported killed by `Wait`. -/
theorem ExecuteWithStdin_write_failure_witness :
    (defaultBackendExecutor.ExecuteWithStdin BackendExecutor brokenPipeOS 5 (str "abcde")
        (str "cat") []).1 = Outcome.returned (some (GoErr.sys (str "broken pipe"))) ∧
    (defaultBackendExecutor.ExecuteWithStdin BackendExecutor brokenPipeOS 5 (str "abcde")
        (str "cat") []).2 =
      [Event.command (str "cat") [], Event.stdinPipe none, Event.start none,
        Event.write (str "abcde") 1 none,
        Event.write (str "bcde") 0 (some (str "broken pipe")), Event.close none] :=
  ⟨(ExecuteWithStdin_write_failure BackendExecutor brokenPipeOS 5 (str "abcde") (str "cat") []
      (str "bcde") 0 (str "broken pipe") (by decide)).1, by decide⟩

/-- A trace made of a part without a close and a part without a write has no
write after a close. -/
theorem no_write_after_close (T : List Event) (hT : ∀ ev ∈ T, ev.isWrite = false) :
    ∀ (X : List Event), (∀ ev ∈ X, ev.isClose = false) →
      ∀ (pre post : List Event) (c : Option GoString),
        X ++ T = pre ++ Event.close c :: post → ∀ ev ∈ post, ev.isWrite = false := by
  intro X
  induction X with
  | nil =>
    intro _ pre post c h ev hev
    apply hT
    rw [List.nil_append] at h
    rw [h]
    exact List.mem_append_right _ (List.mem_cons_of_mem _ hev)
  | cons x X ih =>
    intro hX pre post c h ev hev
    cases pre with
    | nil =>
      simp only [List.cons_append, List.nil_append, List.cons.injEq] at h
      have hx := hX x (List.mem_cons_self _ _)
      rw [h.1] at hx
      simp [Event.isClose] at hx
    | cons p pre =>
      simp only [List.cons_append, List.cons.injEq] at h
      exact ih (fun e he => hX e (List.mem_cons_of_mem _ he)) pre post c h.2 ev hev

/-- C7: once the pipe exists, however the start, the writes and the wait turn
out, a call of `ExecuteWithStdin` that has returned or panicked has closed
the pipe at least once, and no write follows a close in its trace. -/
theorem ExecuteWithStdin_releases_pipe (d : BackendSlot) (os : OS) (fuel : Nat)
    (in_ exe : GoString) (args : List GoString)
    (hpipe : (os exe args).stdinPipe = none) :
    ((defaultBackendExecutor.ExecuteWithStdin d os fuel in_ exe args).1 ≠ Outcome.running →
      1 ≤ (defaultBackendExecutor.ExecuteWithStdin d os fuel in_ exe args).2.countP
        Event.isClose) ∧
    ∀ (pre post : List Event) (c : Option GoString),
      (defaultBackendExecutor.ExecuteWithStdin d os fuel in_ exe args).2 =
        pre ++ Event.close c :: post →
      ∀ ev ∈ post, ev.isWrite = false := by
  cases hstart : (os exe args).start with
  | some e =>
    have hrun : defaultBackendExecutor.ExecuteWithStdin d os fuel in_ exe args =
        (Outcome.returned (some (GoErr.sys e)),
          [Event.command exe args, Event.stdinPipe none, Event.start (some e)] ++
            [Event.close ((os exe args).close
              [Event.command exe args, Event.stdinPipe none, Event.start (some e)])]) := by
      simp [defaultBackendExecutor.ExecuteWithStdin, hpipe, hstart, sysErr, deferredClose]
    rw [hrun]
    refine ⟨fun _ => by simp [List.countP_cons, Event.isClose], ?_⟩
    apply no_write_after_close
    · intro ev hev
      simp only [List.mem_singleton] at hev
      rw [hev]
      rfl
    · intro ev hev
      simp only [List.mem_cons, List.mem_singleton, List.not_mem_nil, or_false] at hev
      rcases hev with rfl | rfl | rfl <;> rfl
  | none =>
    rcases hres : writeLoop (os exe args).write in_ (in_.length : Int) fuel 0
      [Event.command exe args, Event.stdinPipe none, Event.start none] with ⟨ex, tr⟩
    have hE := ExecuteWithStdin_of_loop d os fuel in_ exe args hpipe hstart ex tr hres
    obtain ⟨ws, htr, hall, _, _⟩ := writeLoop_shape (os exe args).write in_
      (in_.length : Int) fuel 0 [Event.command exe args, Event.stdinPipe none, Event.start none]
    rw [hres] at htr
    simp only at htr
    have hX : ∀ ev ∈ tr, ev.isClose = false := by
      intro ev hev
      rw [htr] at hev
      simp only [List.mem_append, List.mem_cons, List.mem_singleton, List.not_mem_nil,
        or_false] at hev
      rcases hev with (rfl | rfl | rfl) | hev
      · rfl
      · rfl
      · rfl
      · have hwr := hall ev hev
        cases ev <;> simp [Event.isWrite] at hwr
        rfl
    cases ex with
    | ret e =>
      simp only at hE
      rw [hE]
      refine ⟨fun _ => by simp [List.countP_append, Event.isClose], ?_⟩
      apply no_write_after_close _ _ tr hX
      intro ev hev
      simp only [List.mem_singleton] at hev
      rw [hev]
      rfl
    | panic =>
      simp only at hE
      rw [hE]
      refine ⟨fun _ => by simp [List.countP_append, Event.isClose], ?_⟩
      apply no_write_after_close _ _ tr hX
      intro ev hev
      simp only [List.mem_singleton] at hev
      rw [hev]
      rfl
    | running =>
      simp only at hE
      rw [hE]
      refine ⟨fun h => absurd rfl h, ?_⟩
      intro pre post c h
      have h2 : tr ++ [] = pre ++ Event.close c :: post := by simpa using h
      exact no_write_after_close [] (by simp) tr hX pre post c h2
    | done =>
      simp only at hE
      rw [hE]
      refine ⟨fun _ => by simp [List.countP_append, List.countP_cons, Event.isClose], ?_⟩
      apply no_write_after_close _ _ tr hX
      intro ev hev
      simp only [List.mem_cons, List.mem_singleton, List.not_mem_nil, or_false] at hev
      rcases hev with rfl | rfl | rfl <;> rfl

/-- Witness of C7: a run that ends on a failed write has closed the pipe. -/
theorem ExecuteWithStdin_releases_pipe_witness :
    1 ≤ (defaultBackendExecutor.ExecuteWithStdin BackendExecutor brokenPipeOS 5 (str "abcde")
      (str "cat") []).2.countP Event.isClose :=
  (ExecuteWithStdin_releases_pipe BackendExecutor brokenPipeOS 5 (str "abcde") (str "cat") []
    rfl).1 (by decide)

/-- C8: on the full-write path (the pipe exists, the process starts, no
write reports an error and the call returns) the pipe is closed exactly
twice, by the explicit close and by the deferred one; whatever the first
close answers (`c1`) and whatever the close of the already closed pipe
answers (`c2`, an error included), `ExecuteWithStdin` returns the result of
`Wait` and nothing else: nil when `Wait` reports nil.  The writer is
arbitrary; with a well-behaved writer and a bound of at least `len(in)` loop
bodies the call is on that path. -/
theorem ExecuteWithStdin_close_results_ignored (d : BackendSlot) (os : OS) (fuel : Nat)
    (in_ exe : GoString) (args : List GoString) (c1 c2 : Option GoString)
    (hpipe : (os exe args).stdinPipe = none) (hstart : (os exe args).start = none) :
    (∀ v : Option GoErr,
      (defaultBackendExecutor.ExecuteWithStdin d (withClose os (closeScript c1 c2)) fuel in_
        exe args).1 = Outcome.returned v →
      NoWriteError (defaultBackendExecutor.ExecuteWithStdin d (withClose os (closeScript c1 c2))
        fuel in_ exe args).2 →
      ∃ (ws : List Event) (w : Option GoString),
        defaultBackendExecutor.ExecuteWithStdin d (withClose os (closeScript c1 c2)) fuel in_
            exe args =
          (Outcome.returned (sysErr w),
            [Event.command exe args, Event.stdinPipe none, Event.start none] ++ ws ++
              [Event.close c1, Event.wait w, Event.close c2]) ∧
        (∀ ev ∈ ws, ev.isWrite = true) ∧
        w = (os exe args).wait
          ([Event.command exe args, Event.stdinPipe none, Event.start none] ++ ws ++
            [Event.close c1]) ∧
        (defaultBackendExecutor.ExecuteWithStdin d (withClose os (closeScript c1 c2)) fuel in_
            exe args).2.countP Event.isClose = 2 ∧
        v = sysErr w ∧
        (w = none → v = none)) ∧
    (WellBehaved (os exe args).write → in_.length < 2 ^ 63 → in_.length ≤ fuel →
      (∃ v, (defaultBackendExecutor.ExecuteWithStdin d (withClose os (closeScript c1 c2)) fuel
        in_ exe args).1 = Outcome.returned v) ∧
      NoWriteError (defaultBackendExecutor.ExecuteWithStdin d (withClose os (closeScript c1 c2))
        fuel in_ exe args).2) := by
  refine ⟨?_, fun hw hlen hfuel =>
    ExecuteWithStdin_well_behaved_path d (withClose os (closeScript c1 c2)) fuel in_ exe args
      hpipe hstart hw hlen hfuel⟩
  intro v hret hno
  obtain ⟨ws, hall, hloop⟩ :=
    ExecuteWithStdin_loop_done d (withClose os (closeScript c1 c2)) fuel in_ exe args
      hpipe hstart v hret hno
  have hE := ExecuteWithStdin_of_loop d (withClose os (closeScript c1 c2)) fuel in_ exe args
    hpipe hstart _ _ hloop
  have hany := any_isClose_of_writes ws hall
  have hcnt := countP_isClose_of_writes ws hall
  have e1 : (withClose os (closeScript c1 c2) exe args).close
      ([Event.command exe args, Event.stdinPipe none, Event.start none] ++ ws) = c1 := by
    simp [withClose, closeScript, hany, Event.isClose]
  have e2 : ∀ w : Option GoString, (withClose os (closeScript c1 c2) exe args).close
      ([Event.command exe args, Event.stdinPipe none, Event.start none] ++ ws ++
        [Event.close c1, Event.wait w]) = c2 := by
    intro w
    simp [withClose, closeScript, Event.isClose]
  have e3 : ∀ h : List Event, (withClose os (closeScript c1 c2) exe args).wait h =
      (os exe args).wait h := fun _ => rfl
  simp only [e1, e2, e3] at hE
  rw [hE] at hret
  simp only [Outcome.returned.injEq] at hret
  refine ⟨ws, _, hE, hall, rfl, ?_, hret.symm, ?_⟩
  · rw [hE]
    simp [List.countP_append, List.countP_cons, hcnt, Event.isClose]
  · intro hnone
    rw [← hret, hnone]
    rfl

/-- Witness of C8: the payload `a` on a pipe whose writer would fail on a
second write; both closes answer with an error and the process exits
cleanly; the call returns nil. -/
theorem ExecuteWithStdin_close_results_ignored_witness :
    defaultBackendExecutor.ExecuteWithStdin BackendExecutor
        (withClose fragileOS (closeScript (some (str "bad file descriptor"))
          (some (str "file already closed")))) 1 (str "a") (str "cat") [] =
      (Outcome.returned none,
        [Event.command (str "cat") [], Event.stdinPipe none, Event.start none,
          Event.write (str "a") 1 none,
          Event.close (some (str "bad file descriptor")), Event.wait none,
          Event.close (some (str "file already closed"))]) ∧
    ∃ (ws : List Event) (w : Option GoString),
      defaultBackendExecutor.ExecuteWithStdin BackendExecutor
          (withClose fragileOS (closeScript (some (str "bad file descriptor"))
            (some (str "file already closed")))) 1 (str "a") (str "cat") [] =
        (Outcome.returned (sysErr w),
          [Event.command (str "cat") [], Event.stdinPipe none, Event.start none] ++ ws ++
            [Event.close (some (str "bad file descriptor")), Event.wait w,
              Event.close (some (str "file already closed"))]) :=
  ⟨by decide,
    ((ExecuteWithStdin_close_results_ignored BackendExecutor fragileOS 1 (str "a") (str "cat") []
      (some (str "bad file descriptor")) (some (str "file already closed"))
      rfl rfl).1 none (by decide) (NoWriteError_of_all _ (by decide))).imp
      fun _ hW => hW.imp fun _ h => h.1⟩

/-! ## The slot BackendExecutor and the failure of StdinPipe -/

/-- C9, as the code has it: the variable `BackendExecutor` has the type
`*defaultBackendExecutor`, so every value it can hold runs the real executor:
`execute`, `run` and `executeStdin` return what the methods of that value
return, and on a system where `which ipvsadm` exits with status 1 `Check` and
`Load` return `IpvsadmMissing` for every value of the slot, while the test
double `cannedExecutor`, an `Executor` that cannot be stored in the slot,
answers the same call with nil. -/
theorem BackendExecutor_holds_only_the_real_executor :
    (∀ (slot : BackendSlot) (os : OS) (fuel : Nat) (in_ exe : GoString) (args : List GoString),
      execute slot os exe args = defaultBackendExecutor.Execute slot os exe args ∧
      run slot os args = defaultBackendExecutor.Run slot os args ∧
      executeStdin slot os fuel in_ exe args =
        defaultBackendExecutor.ExecuteWithStdin slot os fuel in_ exe args) ∧
    cannedExecutor.Execute (str "which") [str "ipvsadm"] = Outcome.returned none ∧
    ∀ slot : BackendSlot,
      (Check slot (fun _ _ => exitsOne)).1 = some GoErr.IpvsadmMissing ∧
      (Load slot (fun _ _ => exitsOne)).1 = some GoErr.IpvsadmMissing ∧
      ∀ fuel : Nat,
        (slotExecutor slot (fun _ _ => exitsOne) fuel).Execute (str "which") [str "ipvsadm"] ≠
          cannedExecutor.Execute (str "which") [str "ipvsadm"] := by
  refine ⟨fun _ _ _ _ _ _ => ⟨rfl, rfl, rfl⟩, rfl, ?_⟩
  intro slot
  refine ⟨rfl, rfl, ?_⟩
  intro fuel h
  simp [slotExecutor, cannedExecutor, defaultBackendExecutor.Execute, exitsOne, sysErr] at h

/-- C10, as the code has it: when `cmd.StdinPipe()` fails with text `t`, the
error is not checked; `stdin` is nil and the `defer stdin.Close()` of line 113
panics before `cmd.Start()` is called, so `ExecuteWithStdin` returns no error
value at all. -/
theorem ExecuteWithStdin_pipe_failure_panics (d : BackendSlot) (c : Cmd) (t : GoString)
    (fuel : Nat) (in_ exe : GoString) (args : List GoString) :
    defaultBackendExecutor.ExecuteWithStdin d (fun _ _ => { c with stdinPipe := some t }) fuel
        in_ exe args =
      (Outcome.panicked, [Event.command exe args, Event.stdinPipe (some t)]) ∧
    ∀ e : Option GoErr,
      (defaultBackendExecutor.ExecuteWithStdin d (fun _ _ => { c with stdinPipe := some t }) fuel
        in_ exe args).1 ≠ Outcome.returned e := by
  have h : defaultBackendExecutor.ExecuteWithStdin d
      (fun _ _ => { c with stdinPipe := some t }) fuel in_ exe args =
      (Outcome.panicked, [Event.command exe args, Event.stdinPipe (some t)]) := by
    simp [defaultBackendExecutor.ExecuteWithStdin]
  refine ⟨h, ?_⟩
  intro e
  rw [h]
  simp

end Lvs
